import Mathlib

/-
  Verification development for the meddleware middleware resolver
  (src/index.js).  The JavaScript source is shallowly embedded:

  * JavaScript values that appear in middleware configuration trees are
    modelled by the inductive `JVal`.  JavaScript numbers are modelled as
    rationals (no NaN / Infinity; none of the verified configurations uses
    them); `Number.MIN_VALUE` (the smallest positive double, 2^(-1074))
    is `minValue`.  Functions are opaque reference values `JVal.func id`;
    their call behaviour is supplied by an environment (`ModEnv.apply`),
    matching JavaScript reference semantics for function equality.
    Object mappings are association lists in insertion order (the exotic
    integer-like-key reordering of JavaScript property enumeration is
    outside the model; the verified configurations use ordinary names).
    Expando properties written onto arrays / regexps / functions are not
    tracked; no verified claim observes them.
  * Fallible code returns `Except JErr _`; a thrown JS `TypeError` is
    `JErr.typeError msg`, a thrown `Error` is `JErr.error msg`.
  * `require`/`util.tryResolve` module loading is abstracted by `ModEnv`,
    the Module Locator boundary of the spec.
  * The files `./rq` and `./util` required by src/index.js are not part
    of src/; the definitions modelling them are marked
    "Modelled from the spec:".
-/

namespace Meddleware

set_option maxRecDepth 4000

/-- JavaScript error values thrown by the embedded code. -/
inductive JErr where
  | typeError (msg : String)
  | error (msg : String)
deriving DecidableEq, Repr

/-- JavaScript configuration values (see header comment). -/
inductive JVal where
  | undefined
  | null
  | bool (b : Bool)
  | num (q : ℚ)
  | str (s : String)
  | regexp (src : String)
  | arr (elems : List JVal)
  | obj (fields : List (String × JVal))
  | func (id : Nat)
deriving Repr

/-- JavaScript truthiness (`!!v`).  `NaN` is outside the model. -/
def jsTruthy : JVal → Bool
  | .undefined => false
  | .null => false
  | .bool b => b
  | .num q => q != 0
  | .str s => s != ""
  | .regexp _ => true
  | .arr _ => true
  | .obj _ => true
  | .func _ => true

/-- core-util-is `isObject`: `typeof arg === 'object' && arg !== null`.
Arrays and regexps are objects in this sense; functions are not. -/
def jsIsObject : JVal → Bool
  | .regexp _ => true
  | .arr _ => true
  | .obj _ => true
  | _ => false

/-- core-util-is `isFunction`. -/
def isFunc : JVal → Bool
  | .func _ => true
  | _ => false

/-- Property read `v[k]`: the first binding of `k` in an object, otherwise
`undefined` (primitive boxing; array index properties and function
properties such as `name` are not tracked, see header comment).  Reads on
`null`/`undefined` throw in JavaScript; the embedded code performs such a
read only inside `resolve`, which errors out before calling `get`. -/
def JVal.get (v : JVal) (k : String) : JVal :=
  match v with
  | .obj fields =>
    match fields.find? (fun kv => kv.1 == k) with
    | some kv => kv.2
    | none => .undefined
  | _ => .undefined

/-- The `in` operator restricted to the values it is used on. -/
def hasField : JVal → String → Bool
  | .obj fields, k => fields.any (fun kv => kv.1 == k)
  | _, _ => false

/-- Write `fields[k] = v`, replacing the first binding or appending. -/
def setField : List (String × JVal) → String → JVal → List (String × JVal)
  | [], k, v => [(k, v)]
  | (k0, v0) :: rest, k, v =>
    if k0 == k then (k0, v) :: rest else (k0, v0) :: setField rest k v

/-- The statement `spec.name = spec.name || name` from `resolve`
(src/index.js line 25): on a mapping object with a falsy `name` the
argument is written into the `name` property, otherwise the value is
unchanged.  Writes onto arrays / regexps are untracked expandos (no claim
observes them); on functions the strict-mode write throws before this
point, and on primitives the code has already thrown. -/
def setName (spec nameArg : JVal) : JVal :=
  match spec with
  | .obj fields =>
    if jsTruthy ((JVal.obj fields).get "name") then .obj fields
    else .obj (setField fields "name" nameArg)
  | v => v

/-- `Object.keys`-style enumeration of own enumerable entries, as used by
`util.mapValues`: mapping objects yield their bindings in insertion
order, arrays yield index/element pairs, strings yield index/character
pairs, other values yield nothing. -/
def mapEntries : JVal → List (String × JVal)
  | .obj fields => fields
  | .arr elems => elems.enum.map (fun ic => (toString ic.1, ic.2))
  | .str s => s.data.enum.map (fun ic => (toString ic.1, .str (String.singleton ic.2)))
  | _ => []

/-- String coercion for property values used as module / method names. -/
def jsToString : JVal → String
  | .str s => s
  | .num q => if q.den = 1 then toString q.num else toString q
  | .bool b => cond b "true" "false"
  | .null => "null"
  | .undefined => "undefined"
  | _ => ""

mutual

/-- `JSON.stringify`, to the extent reachable from `findModule`
diagnostics (no escaping; `undefined`/function members omitted). -/
def jsonStringify : JVal → String
  | .undefined => "undefined"
  | .null => "null"
  | .bool b => cond b "true" "false"
  | .num q => if q.den = 1 then toString q.num else toString q
  | .str s => "\"" ++ s ++ "\""
  | .regexp _ => "\x7b\x7d"
  | .func _ => "undefined"
  | .arr elems => "[" ++ String.intercalate "," (jsonList elems) ++ "]"
  | .obj fields => "\x7b" ++ String.intercalate "," (jsonFields fields) ++ "\x7d"

/-- Array members of a `JSON.stringify` rendering. -/
def jsonList : List JVal → List String
  | [] => []
  | .undefined :: rest => "null" :: jsonList rest
  | .func _ :: rest => "null" :: jsonList rest
  | v :: rest => jsonStringify v :: jsonList rest

/-- Object members of a `JSON.stringify` rendering. -/
def jsonFields : List (String × JVal) → List String
  | [] => []
  | (_, .undefined) :: rest => jsonFields rest
  | (_, .func _) :: rest => jsonFields rest
  | (k, v) :: rest => ("\"" ++ k ++ "\":" ++ jsonStringify v) :: jsonFields rest

end

/-- `Number.MIN_VALUE`: the smallest positive double, 2^(-1074), given as
an explicit numerator/denominator pair so that comparisons against it
reduce in the kernel. -/
def minValue : ℚ := ⟨1, 2 ^ 1074, pow_ne_zero _ (by norm_num), by simp⟩

/-- The numeric `priority` of a spec, when present
(`typeof a.priority === 'number'`). -/
def numPriority : JVal → Option ℚ
  | v => match v.get "priority" with
    | .num q => some q
    | _ => none

/-- The priority key used by `compare` (src/index.js lines 178-183):
a missing or non-numeric `priority` is replaced by `Number.MIN_VALUE`. -/
def priorityQ (v : JVal) : ℚ :=
  (numPriority v).getD minValue

/-- Comparator for sorting middleware by priority
(src/index.js lines 178-183): `ap - bp`. -/
def compare (a b : JVal) : ℚ :=
  priorityQ a - priorityQ b

/-- Strict ordering used by the stable sort.  `Array.prototype.sort`
consumes the comparator only through the sign of its result, and
`compare a b < 0` holds exactly when `priorityQ a < priorityQ b`
(`sub_neg`; proved as `specLt_eq_compareSign` below), so the sort is
driven by this equivalent test, which kernel-reduces. -/
def specLt (a b : JVal) : Bool :=
  decide (priorityQ a < priorityQ b)

/-- Insert before the first element not strictly below `x`
(stable insertion step). -/
def insertB (lt : α → α → Bool) (x : α) : List α → List α
  | [] => [x]
  | y :: ys => if lt y x then y :: insertB lt x ys else x :: y :: ys

/-- Stable ascending sort; models `Array.prototype.sort(compare)`, which
ECMAScript requires to be stable. -/
def stableSort (lt : α → α → Bool) : List α → List α
  | [] => []
  | x :: xs => insertB lt x (stableSort lt xs)

/-- The one sort used by src/index.js, both for top-level sibling specs
(line 213) and for fallback children (line 39). -/
def sortSpecs (l : List JVal) : List JVal :=
  stableSort specLt l

/-- Modelled from the spec: `util.nameObject` (util.js is not under
src/).  Spec section 4.1: "every child mapping entry is first annotated
with its own key as `name`"; section 3: specs are "never mutated except
to fill in a missing `name`".  Non-object entries pass through so that
the subsequent `filter(thing.isObject)` can discard them. -/
def nameObject (v : JVal) (key : String) : JVal :=
  if jsIsObject v then setName v (.str key) else v

/-- The external Module Locator boundary (spec section 6) together with
function-call behaviour: `tryResolve` models `util.tryResolve`,
`pathResolve` models `path.resolve`, `load` models `require`, and
`apply f this args` is the result of calling function `f` with the given
call context and argument list. -/
structure ModEnv where
  tryResolve : String → Option String
  pathResolve : String → String → String
  load : String → Except JErr JVal
  apply : Nat → Option JVal → List JVal → JVal

/-- `findModuleMethod` (src/index.js lines 55-72): selects the
middleware-producing member of a loaded module. -/
def findModuleMethod (config module_ : JVal) : JVal :=
  if jsTruthy (config.get "method") then
    let m := jsToString (config.get "method")
    if jsTruthy (module_.get m) && isFunc (module_.get m) then
      module_.get m
    else if jsTruthy (module_.get "default") && jsIsObject (module_.get "default") then
      (module_.get "default").get m
    else
      .undefined
  else if isFunc module_ then
    module_
  else if jsTruthy (module_.get "default") && isFunc (module_.get "default") then
    module_.get "default"
  else
    .undefined

/-- `findModule` (src/index.js lines 77-91): check the initial module
name, then resolve it against the root; on double failure `require` the
raw name for a meaningful error. -/
def findModule (env : ModEnv) (root : String) (config : JVal) : Except JErr JVal :=
  if !(jsTruthy (config.get "name")) then
    .error (.typeError ("Module name not defined in middleware config: " ++ jsonStringify config))
  else
    let nm := jsToString (config.get "name")
    match env.tryResolve nm with
    | some p => env.load p
    | none =>
      match env.tryResolve (env.pathResolve root nm) with
      | some p => env.load p
      | none => env.load nm

/-- `thing.isArray(config['arguments']) ? config['arguments'] : []`
(src/index.js line 131). -/
def jsArgs (v : JVal) : List JVal :=
  match v with
  | .arr elems => elems
  | _ => []

/-- The function identity of a function value (only read behind an
`isFunc` guard). -/
def fid : JVal → Nat
  | .func f => f
  | _ => 0

/-- Object-config part of `resolveImpl` (src/index.js lines 116-132).
`config.factory && typeof config.factory === 'function'` is `isFunc`;
the source's `if (!thing.isFunction(factory)) throw` appears with the
branches swapped.  The write of `config.name = factory.name` in the
factory branch is a diagnostic backfill never observed afterwards and is
omitted.  In the factory branch the `module` variable of the source is
still `undefined`, so `factory.apply(module, args)` runs with no call
context there; in the located-module branch the loaded unit is the call
context. -/
def resolveImplObj (env : ModEnv) (root : String) (config : JVal) : Except JErr JVal :=
  if isFunc (config.get "factory") then
    pure (env.apply (fid (config.get "factory")) none (jsArgs (config.get "arguments")))
  else do
    let m ← findModule env root config
    let factory := findModuleMethod config m
    if isFunc factory then
      pure (env.apply (fid factory) (some m) (jsArgs (config.get "arguments")))
    else
      .error (.error ("Unable to locate middleware in " ++ jsToString (config.get "name")))

/-- `resolveImpl` (src/index.js lines 101-133): a function config is
invoked directly (no context, no arguments); a string config is treated
as `(obj with name only)`; a falsy config is a Configuration error;
otherwise the object path applies. -/
def resolveImpl (env : ModEnv) (root : String) (config : JVal) : Except JErr JVal :=
  match config with
  | .func f => pure (env.apply f none [])
  | .str s => resolveImplObj env root (.obj [("name", .str s)])
  | _ =>
    if !(jsTruthy config) then
      .error (.typeError "No module section given in middleware entry")
    else
      resolveImplObj env root config

/-- Combination strategy tag of the Combinator Engine. -/
inductive Strat where
  | parallel
  | race
  | fallback
deriving DecidableEq, Repr

/-- A resolved task: either the raw value produced by leaf resolution or
a composite built by `middleware` over already-resolved children. -/
inductive RTask where
  | leaf (v : JVal)
  | comp (strategy : Strat) (fns : List RTask)
deriving Repr

/-- Truthiness of a resolved task (`if (fn)` / `!!fn`): composites are
closures, hence truthy; a leaf is as truthy as its value. -/
def rtTruthy : RTask → Bool
  | .leaf v => jsTruthy v
  | .comp _ _ => true

/-- `middleware` (src/index.js lines 143-152): drop falsy entries, wrap
the rest into one composite under the given strategy.  The per-request
behaviour of the composite is given by `runRT`. -/
def middleware (strategy : Strat) (fns : List RTask) : RTask :=
  .comp strategy (fns.filter rtTruthy)

/-- The processed child list of a fallback spec (src/index.js lines
38-39): annotate each entry with its key, drop non-objects, stable-sort
ascending by priority. -/
def fallbackKids (v : JVal) : List JVal :=
  sortSpecs (((mapEntries v).map (fun kc => nameObject kc.2 kc.1)).filter jsIsObject)

/-- Resolution of a keyed child mapping: `util.mapValues(spec.x, resolve)`
calls `resolve(child, key)` on each entry.  Modelled from the spec for
the shape of `util.mapValues` (util.js is not under src/); the children
settle synchronously, so the fail-fast order of `Promise.all` is the
entry order. -/
def resolveKeyed (rec : JVal → JVal → Except JErr RTask) :
    List (String × JVal) → Except JErr (List RTask)
  | [] => pure []
  | (k, c) :: rest => do
    let t ← rec c (.str k)
    let ts ← resolveKeyed rec rest
    pure (t :: ts)

/-- Resolution of an already-sorted fallback child array:
`util.mapValues(fns, resolve)` enumerates array indices, so each child is
resolved with its decimal index string as the name argument. -/
def resolveIndexedFrom (rec : JVal → JVal → Except JErr RTask) (i : Nat) :
    List JVal → Except JErr (List RTask)
  | [] => pure []
  | c :: rest => do
    let t ← rec c (.str (toString i))
    let ts ← resolveIndexedFrom rec (i + 1) rest
    pure (t :: ts)

/-- Resolution of an already-sorted fallback child array, starting at
index 0. -/
def resolveIndexed (rec : JVal → JVal → Except JErr RTask) (l : List JVal) :
    Except JErr (List RTask) :=
  resolveIndexedFrom rec 0 l

/-- One unfolding of `resolve` (src/index.js lines 18-49) with the
recursive occurrence abstracted as `rec`.  Non-object specs reproduce the
JavaScript behaviour: property access on `null`/`undefined` throws, the
`in` operator on a primitive throws, the strict-mode write to the
read-only `name` of a function throws, and arrays / regexps fall through
to leaf resolution with an `undefined` module section. -/
def resolveBody (env : ModEnv) (root : String) (rec : JVal → JVal → Except JErr RTask)
    (spec nameArg : JVal) : Except JErr RTask :=
  match spec with
  | .null => .error (.typeError "Cannot read properties of null (reading enabled)")
  | .undefined => .error (.typeError "Cannot read properties of undefined (reading enabled)")
  | .bool _ => .error (.typeError "Cannot use in operator to search for enabled in a primitive")
  | .num _ => .error (.typeError "Cannot use in operator to search for enabled in a primitive")
  | .str _ => .error (.typeError "Cannot use in operator to search for enabled in a primitive")
  | .func _ => .error (.typeError "Cannot assign to read only property name of function")
  | .arr elems => do
    let v ← resolveImpl env root ((setName (JVal.arr elems) nameArg).get "module")
    pure (RTask.leaf v)
  | .regexp r => do
    let v ← resolveImpl env root ((setName (JVal.regexp r) nameArg).get "module")
    pure (RTask.leaf v)
  | .obj fields =>
    let spec0 := JVal.obj fields
    if !(jsTruthy (spec0.get "enabled")) && hasField spec0 "enabled" then
      pure (RTask.leaf .undefined)
    else
      let spec1 := setName spec0 nameArg
      if jsTruthy (spec1.get "parallel") then do
        let fns ← resolveKeyed rec (mapEntries (spec1.get "parallel"))
        pure (middleware .parallel fns)
      else if jsTruthy (spec1.get "race") then do
        let fns ← resolveKeyed rec (mapEntries (spec1.get "race"))
        pure (middleware .race fns)
      else if jsTruthy (spec1.get "fallback") then do
        let fns ← resolveIndexed rec (fallbackKids (spec1.get "fallback"))
        pure (middleware .fallback fns)
      else do
        let v ← resolveImpl env root (spec1.get "module")
        pure (RTask.leaf v)

/-- Fuel-indexed resolver; `resolve` instantiates the fuel with a bound
on the nesting depth of the spec, which `resolveF_eq_resolve` shows to be
irrelevant beyond that bound. -/
def resolveF (env : ModEnv) (root : String) : Nat → JVal → JVal → Except JErr RTask
  | 0, _, _ => .error (.error "fuel exhausted")
  | fuel + 1, spec, nameArg => resolveBody env root (resolveF env root fuel) spec nameArg

mutual

/-- Nesting depth of a configuration value. -/
def depth : JVal → Nat
  | .obj fields => depthF fields + 1
  | .arr elems => depthL elems + 1
  | _ => 0

/-- Nesting depth of an object field list. -/
def depthF : List (String × JVal) → Nat
  | [] => 0
  | (_, v) :: rest => max (depth v) (depthF rest)

/-- Nesting depth of an array element list. -/
def depthL : List JVal → Nat
  | [] => 0
  | v :: rest => max (depth v) (depthL rest)

end

/-- `resolve` as produced by `resolvery(basedir)` (src/index.js lines
17-50): the spec tree is finite, so fuel one past its depth suffices. -/
def resolve (env : ModEnv) (root : String) (spec nameArg : JVal) : Except JErr RTask :=
  resolveF env root (depth spec + 1) spec nameArg

/-- The `toCreate` list of `meddlewareImpl` (src/index.js lines 210-213):
name-annotate the top-level entries, keep objects, stable-sort by
priority. -/
def toCreate (settings : List (String × JVal)) : List JVal :=
  sortSpecs ((settings.map (fun kv => nameObject kv.2 kv.1)).filter jsIsObject)

/-- The registration loop of `meddlewareImpl` (src/index.js lines
214-220): resolve each spec in order and buffer `(fn, spec)` for the
truthy results. -/
def registerLoop (env : ModEnv) (root : String) : List JVal → Except JErr (List (RTask × JVal))
  | [] => pure []
  | spec :: rest => do
    let fn ← resolve env root spec (spec.get "name")
    let others ← registerLoop env root rest
    pure (if rtTruthy fn then (fn, spec) :: others else others)

/-- The buffered registration list produced by `meddlewareImpl` before
the mount signal. -/
def toRegister (env : ModEnv) (root : String) (settings : List (String × JVal)) :
    Except JErr (List (RTask × JVal)) :=
  registerLoop env root (toCreate settings)

/-- The test `s[s.length - 1] === '/'` of src/index.js line 200; on the
empty string the indexing yields `undefined`, which is not `'/'`. -/
def lastCharIsSlash (s : String) : Bool :=
  match s.data.getLast? with
  | some c => c == '/'
  | none => false

/-- The test `s[0] === '/'` of src/index.js line 201. -/
def firstCharIsSlash (s : String) : Bool :=
  match s.data.head? with
  | some c => c == '/'
  | none => false

/-- `s.slice(1)` as used on routes (ASCII routes; the JavaScript slice is
by UTF-16 unit, this one by character). -/
def strDrop1 (s : String) : String :=
  String.mk (s.data.drop 1)

/-- `normalize` (src/index.js lines 192-205): regexps and arrays cannot
be normalized and pass through; a string route is glued to the mount path
with exactly one separator added or stripped; any other route value falls
through and yields the mount path itself. -/
def normalize (mountpath : String) (route : JVal) : JVal :=
  match route with
  | .regexp r => .regexp r
  | .arr elems => .arr elems
  | .str r =>
    let mp := if lastCharIsSlash mountpath then mountpath else mountpath ++ "/"
    .str (mp ++ (if firstCharIsSlash r then strDrop1 r else r))
  | _ => .str mountpath

/-- Per-request behaviour of a leaf middleware value: the argument the
task passes to its continuation — `none` for success, `some err` for an
error (spec section 3, Resolved Task; section 4.3, build phase). -/
abbrev Beh := JVal → Option JVal

mutual

/-- Modelled from the spec: the per-request outcome of a resolved task
under the Combinator Engine of rq.js, which is not under src/ (spec
section 4.3).  The model is the deterministic single-threaded schedule of
section 5: concurrent children settle in start order, so parallel
forwards the first error in list order and race forwards the outcome of
the first child.  A requestor that throws is treated as a failed
completion (section 7: runtime errors are never thrown, always delivered
to the continuation). -/
def runRT (beh : Beh) : RTask → Option JVal
  | .leaf v => beh v
  | .comp .parallel ts => runPar beh ts
  | .comp .race ts => runRace beh ts
  | .comp .fallback ts => runFb beh ts

/-- Modelled from the spec: parallel combination (section 4.3) — all
children run; the first error in completion order is forwarded, no error
means success. -/
def runPar (beh : Beh) : List RTask → Option JVal
  | [] => none
  | t :: ts =>
    match runRT beh t with
    | some e => some e
    | none => runPar beh ts

/-- Modelled from the spec: race combination (section 4.3) — the first
completion decides; in the deterministic schedule that is the first
child. -/
def runRace (beh : Beh) : List RTask → Option JVal
  | [] => none
  | t :: _ => runRT beh t

/-- Modelled from the spec: fallback combination (section 4.3) —
sequential; stop with success at the first child that completes without
error; if every child errors, forward the last error; an empty list
succeeds. -/
def runFb (beh : Beh) : List RTask → Option JVal
  | [] => none
  | t :: ts =>
    match runRT beh t with
    | none => none
    | some e =>
      match ts with
      | [] => some e
      | _ :: _ => runFb beh ts

end

/-- Modelled from the spec: the children a fallback composite actually
invokes, in order (section 4.3): each child up to and including the first
success; every child after it is never started. -/
def fallbackInvoked (beh : Beh) : List RTask → List RTask
  | [] => []
  | t :: ts =>
    match runRT beh t with
    | none => [t]
    | some _ => t :: fallbackInvoked beh ts

/-- Environment with no resolvable modules and a constant function
result; enough for configurations that are settled before or without
module loading. -/
def env0 : ModEnv where
  tryResolve := fun _ => none
  pathResolve := fun root n => root ++ "/" ++ n
  load := fun n => .error (.error ("Cannot find module " ++ n))
  apply := fun _ _ _ => .func 9

/-- Environment whose factories 1, 2, 3 produce the middleware functions
11, 12, 13. -/
def env2 : ModEnv where
  tryResolve := fun _ => none
  pathResolve := fun root n => root ++ "/" ++ n
  load := fun n => .error (.error ("Cannot find module " ++ n))
  apply := fun f _ _ =>
    match f with
    | 1 => .func 11
    | 2 => .func 12
    | 3 => .func 13
    | _ => .undefined

/-- Request-time behaviour for the fallback scenario of section 8 of the
spec: middleware 11 succeeds, middleware 12 and everything else fails. -/
def beh2 : Beh := fun v =>
  match v with
  | .func 11 => none
  | .func 12 => some (.str "error from 12")
  | _ => some (.str "error from other")

/-- Fallback spec with children of priorities 2 (fails at request time),
1 (succeeds), 3 (must never run). -/
def c2spec : JVal := .obj [("fallback", .obj
  [("a", .obj [("priority", .num 2), ("module", .obj [("factory", .func 2)])]),
   ("b", .obj [("priority", .num 1), ("module", .obj [("factory", .func 1)])]),
   ("c", .obj [("priority", .num 3), ("module", .obj [("factory", .func 3)])])])]

/-- Parallel spec with one resolvable object child and one numeric
(non-object) child. -/
def c4spec : JVal := .obj [("parallel", .obj
  [("ok", .obj [("module", .obj [("factory", .func 1)])]),
   ("bad", .num 5)])]

/-- `c4spec` with the non-object child removed. -/
def c4specPruned : JVal := .obj [("parallel", .obj
  [("ok", .obj [("module", .obj [("factory", .func 1)])])])]

/-- Environment that locates module "x" as a unit whose default export is
factory 7, and whose factory 7 returns 1 when called with a call context
and 2 when called without one. -/
def cenv : ModEnv where
  tryResolve := fun n => some n
  pathResolve := fun root n => root ++ "/" ++ n
  load := fun _ => .ok (.obj [("default", .func 7)])
  apply := fun f this _ =>
    if f = 7 then (match this with | some _ => .num 1 | none => .num 2) else .undefined

/-- The sort test agrees with the sign of the source comparator. -/
theorem specLt_eq_compareSign (a b : JVal) : specLt a b = decide (compare a b < 0) :=
  (decide_eq_decide.mpr sub_neg).symm

theorem mem_insertB {lt : α → α → Bool} {x a : α} {l : List α} :
    a ∈ insertB lt x l ↔ a = x ∨ a ∈ l := by
  induction l with
  | nil => simp [insertB]
  | cons y ys ih =>
    by_cases h : lt y x = true <;> simp [insertB, h, ih] <;> tauto

theorem mem_stableSort {lt : α → α → Bool} {a : α} {l : List α} :
    a ∈ stableSort lt l ↔ a ∈ l := by
  induction l with
  | nil => simp [stableSort]
  | cons x xs ih => simp [stableSort, mem_insertB, ih]

theorem insertB_eq_takeWhile_dropWhile {lt : α → α → Bool} (x : α) (l : List α) :
    insertB lt x l =
      l.takeWhile (fun y => lt y x) ++ x :: l.dropWhile (fun y => lt y x) := by
  induction l with
  | nil => simp [insertB]
  | cons y ys ih =>
    by_cases h : lt y x = true
    · simp [insertB, h, List.takeWhile_cons, List.dropWhile_cons, ih]
    · simp [insertB, h, List.takeWhile_cons, List.dropWhile_cons]

theorem pairwise_insertB {x : JVal} {l : List JVal}
    (h : l.Pairwise (fun a b => priorityQ a ≤ priorityQ b)) :
    (insertB specLt x l).Pairwise (fun a b => priorityQ a ≤ priorityQ b) := by
  induction l with
  | nil => simp [insertB]
  | cons y ys ih =>
    rcases h with _ | ⟨hy, hys⟩
    by_cases hlt : specLt y x = true
    · rw [insertB, if_pos hlt, List.pairwise_cons]
      refine ⟨?_, ih hys⟩
      intro b hb
      rcases mem_insertB.mp hb with rfl | hb
      · exact le_of_lt (of_decide_eq_true hlt)
      · exact hy b hb
    · rw [insertB, if_neg hlt, List.pairwise_cons]
      have hxy : priorityQ x ≤ priorityQ y := by
        simp only [specLt, decide_eq_true_eq] at hlt
        exact le_of_not_lt hlt
      refine ⟨?_, List.Pairwise.cons hy hys⟩
      intro b hb
      rcases List.mem_cons.mp hb with rfl | hb
      · exact hxy
      · exact le_trans hxy (hy b hb)

/-- The stable sort really sorts ascending by priority. -/
theorem pairwise_sortSpecs (l : List JVal) :
    (sortSpecs l).Pairwise (fun a b => priorityQ a ≤ priorityQ b) := by
  induction l with
  | nil => exact List.Pairwise.nil
  | cons x xs ih => exact pairwise_insertB ih

theorem filter_insertB {x : JVal} {l : List JVal} (q : ℚ) :
    (insertB specLt x l).filter (fun a => decide (priorityQ a = q)) =
      if priorityQ x = q then x :: l.filter (fun a => decide (priorityQ a = q))
      else l.filter (fun a => decide (priorityQ a = q)) := by
  have hsplit : (l.takeWhile (fun y => specLt y x)).filter
        (fun a => decide (priorityQ a = q)) ++
      (l.dropWhile (fun y => specLt y x)).filter (fun a => decide (priorityQ a = q)) =
      l.filter (fun a => decide (priorityQ a = q)) := by
    rw [← List.filter_append, List.takeWhile_append_dropWhile]
  rw [insertB_eq_takeWhile_dropWhile, List.filter_append, List.filter_cons]
  by_cases hx : priorityQ x = q
  · have htake : (l.takeWhile (fun y => specLt y x)).filter
        (fun a => decide (priorityQ a = q)) = [] := by
      rw [List.filter_eq_nil_iff]
      intro a ha
      have hlt := List.mem_takeWhile_imp ha
      have hab : priorityQ a < priorityQ x := of_decide_eq_true hlt
      simp only [decide_eq_true_eq]
      rw [hx] at hab
      exact ne_of_lt hab
    rw [htake, if_pos hx, decide_eq_true hx, if_pos rfl, List.nil_append]
    rw [htake] at hsplit
    rw [List.nil_append] at hsplit
    rw [hsplit]
  · rw [if_neg hx, decide_eq_false hx]
    simp only [Bool.false_eq_true, if_false]
    exact hsplit

/-- Stability of the sort: the elements of any one priority class appear
in their original relative order. -/
theorem filter_sortSpecs (l : List JVal) (q : ℚ) :
    (sortSpecs l).filter (fun a => decide (priorityQ a = q)) =
      l.filter (fun a => decide (priorityQ a = q)) := by
  simp only [sortSpecs]
  induction l with
  | nil => rfl
  | cons x xs ih =>
    rw [stableSort, filter_insertB, ih]
    by_cases hx : priorityQ x = q
    · rw [if_pos hx, List.filter_cons, decide_eq_true hx, if_pos rfl]
    · rw [if_neg hx, List.filter_cons, decide_eq_false hx]
      simp only [Bool.false_eq_true, if_false]

theorem jsTruthy_of_isFunc {v : JVal} (h : isFunc v = true) : jsTruthy v = true := by
  cases v <;> first | rfl | exact absurd h (by simp [isFunc])

theorem jsIsObject_setName {v n : JVal} : jsIsObject (setName v n) = jsIsObject v := by
  cases v with
  | obj fields =>
    rw [setName]
    by_cases ht : jsTruthy ((JVal.obj fields).get "name") = true
    · rw [if_pos ht]
    · rw [if_neg ht]
      rfl
  | undefined => rfl
  | null => rfl
  | bool b => rfl
  | num q => rfl
  | str s => rfl
  | regexp r => rfl
  | arr elems => rfl
  | func f => rfl

theorem jsIsObject_nameObject {v : JVal} {k : String} :
    jsIsObject (nameObject v k) = jsIsObject v := by
  rw [nameObject]
  by_cases h : jsIsObject v = true
  · rw [if_pos h, jsIsObject_setName]
  · rw [if_neg h]

theorem get_setField_eq {fs : List (String × JVal)} {k : String} {v : JVal} :
    (JVal.obj (setField fs k v)).get k = v := by
  induction fs with
  | nil => simp [setField, JVal.get, List.find?]
  | cons kv rest ih =>
    obtain ⟨k1, v1⟩ := kv
    by_cases h1 : (k1 == k) = true
    · simp [setField, h1, JVal.get, List.find?]
    · simp only [setField, h1, Bool.not_eq_true, if_neg]
      simp only [JVal.get, List.find?, h1] at ih ⊢
      exact ih

theorem get_setField_ne {fs : List (String × JVal)} {k k0 : String} {v : JVal}
    (h : k0 ≠ k) : (JVal.obj (setField fs k v)).get k0 = (JVal.obj fs).get k0 := by
  induction fs with
  | nil =>
    simp only [setField, JVal.get, List.find?]
    have : (k == k0) = false := by
      rw [beq_eq_false_iff_ne]
      exact fun hk => h hk.symm
    rw [this]
  | cons kv rest ih =>
    obtain ⟨k1, v1⟩ := kv
    by_cases h1 : (k1 == k) = true
    · simp only [setField, h1, if_pos]
      have hk1 : k1 = k := eq_of_beq h1
      have : (k1 == k0) = false := by
        rw [beq_eq_false_iff_ne, hk1]
        exact fun hk => h hk.symm
      simp only [JVal.get, List.find?, this]
    · simp only [setField, h1, Bool.not_eq_true, if_neg]
      by_cases h2 : (k1 == k0) = true
      · simp only [JVal.get, List.find?, h2]
      · simp only [JVal.get, List.find?, h2, Bool.not_eq_true] at ih ⊢
        exact ih

theorem get_setName_ne {spec nameArg : JVal} {k : String} (h : k ≠ "name") :
    (setName spec nameArg).get k = spec.get k := by
  cases spec with
  | obj fields =>
    rw [setName]
    by_cases ht : jsTruthy ((JVal.obj fields).get "name") = true
    · rw [if_pos ht]
    · rw [if_neg ht]
      exact get_setField_ne h
  | undefined => rfl
  | null => rfl
  | bool b => rfl
  | num q => rfl
  | str s => rfl
  | regexp r => rfl
  | arr elems => rfl
  | func f => rfl

theorem depthF_mem {fs : List (String × JVal)} {k : String} {v : JVal}
    (h : (k, v) ∈ fs) : depth v ≤ depthF fs := by
  induction fs with
  | nil => cases h
  | cons kv rest ih =>
    obtain ⟨k1, v1⟩ := kv
    rw [depthF]
    rcases List.mem_cons.mp h with heq | hmem
    · cases heq
      exact le_max_left _ _
    · exact le_trans (ih hmem) (le_max_right _ _)

theorem depthL_mem {l : List JVal} {v : JVal} (h : v ∈ l) : depth v ≤ depthL l := by
  induction l with
  | nil => cases h
  | cons w rest ih =>
    rw [depthL]
    rcases List.mem_cons.mp h with rfl | hmem
    · exact le_max_left _ _
    · exact le_trans (ih hmem) (le_max_right _ _)

theorem depth_get_lt (fs : List (String × JVal)) (k : String) :
    depth ((JVal.obj fs).get k) < depth (JVal.obj fs) := by
  rw [depth]
  cases hf : fs.find? (fun kv => kv.1 == k) with
  | none =>
    simp only [JVal.get, hf]
    have h0 : depth JVal.undefined = 0 := rfl
    rw [h0]
    omega
  | some kv =>
    simp only [JVal.get, hf]
    have hmem : kv ∈ fs := List.mem_of_find?_eq_some hf
    have hmem2 : (kv.1, kv.2) ∈ fs := by simpa using hmem
    have : depth kv.2 ≤ depthF fs := depthF_mem hmem2
    omega

theorem mem_enumFrom_snd {l : List α} {ia : Nat × α} :
    ∀ {i : Nat}, ia ∈ l.enumFrom i → ia.2 ∈ l := by
  induction l with
  | nil => intro i h; cases h
  | cons x xs ih =>
    intro i h
    rcases List.mem_cons.mp h with rfl | hmem
    · exact List.mem_cons_self _ _
    · exact List.mem_cons_of_mem _ (ih hmem)

theorem depth_mapEntries {v : JVal} {k : String} {c : JVal}
    (h : (k, c) ∈ mapEntries v) : depth c ≤ depth v := by
  cases v with
  | obj fs =>
    have h1 : depth c ≤ depthF fs := depthF_mem h
    rw [depth]
    omega
  | arr elems =>
    simp only [mapEntries, List.enum] at h
    obtain ⟨ic, hic, heq⟩ := List.mem_map.mp h
    have h2 : ic.2 ∈ elems := mem_enumFrom_snd hic
    have h3 : c = ic.2 := by
      have := congrArg Prod.snd heq
      simpa using this.symm
    rw [h3, depth]
    exact le_trans (depthL_mem h2) (Nat.le_succ_of_le (le_refl _))
  | str s =>
    simp only [mapEntries, List.enum] at h
    obtain ⟨ic, _, heq⟩ := List.mem_map.mp h
    have h3 : c = .str (String.singleton ic.2) := by
      have := congrArg Prod.snd heq
      simpa using this.symm
    rw [h3]
    exact Nat.le_refl _
  | undefined => cases h
  | null => cases h
  | bool b => cases h
  | num q => cases h
  | regexp r => cases h
  | func f => cases h

theorem depthF_setField_str {fs : List (String × JVal)} {k s : String} :
    depthF (setField fs k (.str s)) ≤ depthF fs := by
  induction fs with
  | nil =>
    have h0 : depth (JVal.str s) = 0 := rfl
    simp only [setField, depthF, h0]
    omega
  | cons kv rest ih =>
    obtain ⟨k1, v1⟩ := kv
    by_cases h1 : (k1 == k) = true
    · have h0 : depth (JVal.str s) = 0 := rfl
      simp only [setField, h1, if_pos, depthF, h0]
      exact max_le_max (Nat.zero_le _) (le_refl _)
    · simp only [setField, h1, Bool.not_eq_true, if_neg]
      rw [depthF, depthF]
      exact max_le_max (le_refl _) ih

theorem depth_setName_str {v : JVal} {k : String} :
    depth (setName v (.str k)) ≤ depth v := by
  cases v with
  | obj fields =>
    rw [setName]
    by_cases ht : jsTruthy ((JVal.obj fields).get "name") = true
    · rw [if_pos ht]
    · rw [if_neg ht, depth, depth]
      have h2 : depthF (setField fields "name" (JVal.str k)) ≤ depthF fields :=
        depthF_setField_str
      omega
  | undefined => exact le_refl _
  | null => exact le_refl _
  | bool b => exact le_refl _
  | num q => exact le_refl _
  | str s => exact le_refl _
  | regexp r => exact le_refl _
  | arr elems => exact le_refl _
  | func f => exact le_refl _

theorem depth_nameObject {v : JVal} {k : String} :
    depth (nameObject v k) ≤ depth v := by
  rw [nameObject]
  by_cases h : jsIsObject v = true
  · rw [if_pos h]
    exact depth_setName_str
  · rw [if_neg h]

theorem resolveKeyed_congr {f g : JVal → JVal → Except JErr RTask}
    {l : List (String × JVal)}
    (h : ∀ k c, (k, c) ∈ l → ∀ n, f c n = g c n) :
    resolveKeyed f l = resolveKeyed g l := by
  induction l with
  | nil => rfl
  | cons kc rest ih =>
    obtain ⟨k, c⟩ := kc
    have ih' := ih (fun k' c' hm n => h k' c' (List.mem_cons_of_mem _ hm) n)
    simp only [resolveKeyed, h k c (List.mem_cons_self _ _), ih']

theorem resolveIndexedFrom_congr {f g : JVal → JVal → Except JErr RTask}
    {l : List JVal} (h : ∀ c ∈ l, ∀ n, f c n = g c n) :
    ∀ i, resolveIndexedFrom f i l = resolveIndexedFrom g i l := by
  induction l with
  | nil => intro i; rfl
  | cons c rest ih =>
    intro i
    have ih' := ih (fun c' hm n => h c' (List.mem_cons_of_mem _ hm) n)
    simp only [resolveIndexedFrom, h c (List.mem_cons_self _ _), ih']

theorem resolveBody_congr {env : ModEnv} {root : String}
    {f g : JVal → JVal → Except JErr RTask} {spec nameArg : JVal}
    (h : ∀ c n, depth c < depth spec → f c n = g c n) :
    resolveBody env root f spec nameArg = resolveBody env root g spec nameArg := by
  cases spec with
  | obj fields =>
    simp only [resolveBody]
    by_cases he : (!(jsTruthy ((JVal.obj fields).get "enabled"))
        && hasField (JVal.obj fields) "enabled") = true
    · rw [if_pos he, if_pos he]
    · rw [if_neg he, if_neg he]
      have hkeyed : ∀ key : String, key ≠ "name" →
          ∀ k c, (k, c) ∈ mapEntries ((setName (JVal.obj fields) nameArg).get key) →
          ∀ n, f c n = g c n := by
        intro key hkey k c hm n
        apply h
        rw [get_setName_ne hkey] at hm
        exact lt_of_le_of_lt (depth_mapEntries hm) (depth_get_lt fields key)
      by_cases hp : jsTruthy ((setName (JVal.obj fields) nameArg).get "parallel") = true
      · rw [if_pos hp, if_pos hp,
          resolveKeyed_congr (hkeyed "parallel" (by decide))]
      · rw [if_neg hp, if_neg hp]
        by_cases hr : jsTruthy ((setName (JVal.obj fields) nameArg).get "race") = true
        · rw [if_pos hr, if_pos hr, resolveKeyed_congr (hkeyed "race" (by decide))]
        · rw [if_neg hr, if_neg hr]
          by_cases hfb : jsTruthy ((setName (JVal.obj fields) nameArg).get "fallback") = true
          · rw [if_pos hfb, if_pos hfb]
            have hfall : ∀ c ∈ fallbackKids ((setName (JVal.obj fields) nameArg).get "fallback"),
                ∀ n, f c n = g c n := by
              intro c hm n
              apply h
              rw [get_setName_ne (by decide)] at hm
              simp only [fallbackKids, sortSpecs] at hm
              have hm2 := mem_stableSort.mp hm
              have hm3 := (List.mem_filter.mp hm2).1
              obtain ⟨kc, hkc, heq⟩ := List.mem_map.mp hm3
              have hd1 : depth c ≤ depth kc.2 := by
                rw [← heq]
                exact depth_nameObject
              have hkc2 : (kc.1, kc.2) ∈ mapEntries ((JVal.obj fields).get "fallback") := by
                simpa using hkc
              have hd2 : depth kc.2 ≤ depth ((JVal.obj fields).get "fallback") :=
                depth_mapEntries hkc2
              exact lt_of_le_of_lt (le_trans hd1 hd2) (depth_get_lt fields "fallback")
            rw [show resolveIndexed f (fallbackKids ((setName (JVal.obj fields) nameArg).get "fallback"))
                = resolveIndexed g (fallbackKids ((setName (JVal.obj fields) nameArg).get "fallback"))
              from resolveIndexedFrom_congr hfall 0]
          · rw [if_neg hfb, if_neg hfb]
  | undefined => rfl
  | null => rfl
  | bool b => rfl
  | num q => rfl
  | str s => rfl
  | regexp r => rfl
  | arr elems => rfl
  | func fid => rfl

/-- Any fuel strictly above the nesting depth of the spec computes
`resolve`. -/
theorem resolveF_high_fuel (env : ModEnv) (root : String) :
    ∀ n spec nameArg, depth spec < n →
    resolveF env root n spec nameArg = resolve env root spec nameArg := by
  intro n
  induction n using Nat.strong_induction_on with
  | _ n ih =>
    intro spec nameArg hd
    match n, hd with
    | n' + 1, hd =>
      rw [resolveF, resolve, resolveF]
      apply resolveBody_congr
      intro c nm hc
      have hd' : depth spec ≤ n' := Nat.lt_succ_iff.mp hd
      have h1 : resolveF env root n' c nm = resolve env root c nm :=
        ih n' (Nat.lt_succ_self n') c nm (lt_of_lt_of_le hc hd')
      have h2 : resolveF env root (depth spec) c nm = resolve env root c nm :=
        ih (depth spec) hd c nm hc
      rw [h1, h2]

theorem resolve_obj_unfold (env : ModEnv) (root : String) (fs : List (String × JVal))
    (nameArg : JVal) :
    resolve env root (JVal.obj fs) nameArg
      = resolveBody env root (resolveF env root (depth (JVal.obj fs))) (JVal.obj fs) nameArg :=
  rfl

theorem resolve_disabled {env : ModEnv} {root : String} {fs : List (String × JVal)}
    {nameArg : JVal} (h1 : hasField (JVal.obj fs) "enabled" = true)
    (h2 : jsTruthy ((JVal.obj fs).get "enabled") = false) :
    resolve env root (JVal.obj fs) nameArg = .ok (.leaf .undefined) := by
  rw [resolve_obj_unfold]
  simp only [resolveBody]
  rw [h2, h1]
  rfl

theorem registerLoop_not_disabled {env : ModEnv} {root : String} :
    ∀ {l : List JVal} {res : List (RTask × JVal)},
    registerLoop env root l = .ok res →
    ∀ fn spec, (fn, spec) ∈ res →
    ¬(hasField spec "enabled" = true ∧ jsTruthy (spec.get "enabled") = false) := by
  intro l
  induction l with
  | nil =>
    intro res h fn spec hmem
    simp only [registerLoop] at h
    cases h
    exact absurd hmem (List.not_mem_nil _)
  | cons spec0 rest ih =>
    intro res h fn spec hmem
    simp only [registerLoop] at h
    cases hr : resolve env root spec0 (spec0.get "name") with
    | error e =>
      rw [hr] at h
      simp only [bind, Except.bind] at h
      cases h
    | ok fn0 =>
      rw [hr] at h
      simp only [bind, Except.bind] at h
      cases ho : registerLoop env root rest with
      | error e =>
        rw [ho] at h
        cases h
      | ok others =>
        rw [ho] at h
        simp only [pure, Except.pure] at h
        injection h with h
        subst h
        by_cases htr : rtTruthy fn0 = true
        · rw [if_pos htr] at hmem
          rcases List.mem_cons.mp hmem with heq | hm
          · injection heq with he1 he2
            subst he1
            subst he2
            rintro ⟨hd1, hd2⟩
            cases spec with
            | obj sfs =>
              have hres : resolve env root (JVal.obj sfs) ((JVal.obj sfs).get "name")
                  = .ok (.leaf .undefined) := resolve_disabled hd1 hd2
              rw [hr] at hres
              injection hres with hres
              subst hres
              exact absurd htr (by decide)
            | undefined => simp [hasField] at hd1
            | null => simp [hasField] at hd1
            | bool b => simp [hasField] at hd1
            | num q => simp [hasField] at hd1
            | str s => simp [hasField] at hd1
            | regexp r => simp [hasField] at hd1
            | arr elems => simp [hasField] at hd1
            | func f => simp [hasField] at hd1
          · exact ih ho fn spec hm
        · rw [if_neg htr] at hmem
          exact ih ho fn spec hmem

/-- C1: a spec object whose `enabled` key is present with a falsy value
resolves to nothing (`undefined`), and no entry for any such spec ever
appears in the buffered registration list. -/
theorem c1_enabled_false_prunes :
    (∀ (env : ModEnv) (root : String) (fs : List (String × JVal)) (nameArg : JVal),
      hasField (JVal.obj fs) "enabled" = true →
      jsTruthy ((JVal.obj fs).get "enabled") = false →
      resolve env root (JVal.obj fs) nameArg = .ok (.leaf .undefined)) ∧
    (∀ (env : ModEnv) (root : String) (settings : List (String × JVal))
       (res : List (RTask × JVal)),
      toRegister env root settings = .ok res →
      ∀ fn spec, (fn, spec) ∈ res →
      ¬(hasField spec "enabled" = true ∧ jsTruthy (spec.get "enabled") = false)) :=
  ⟨fun _ _ _ _ h1 h2 => resolve_disabled h1 h2,
   fun _ _ _ _ h fn spec hmem => registerLoop_not_disabled h fn spec hmem⟩

/-- Witness for C1 at concrete inputs: a disabled spec resolves to
nothing, and the single entry registered from a one-spec settings mapping
is not disabled. -/
theorem c1_witness :
    resolve env0 "." (JVal.obj [("enabled", JVal.bool false)]) JVal.undefined
        = .ok (.leaf .undefined) ∧
    ¬(hasField (JVal.obj [("module", JVal.obj [("factory", JVal.func 2)]),
        ("name", JVal.str "e")]) "enabled" = true ∧
      jsTruthy ((JVal.obj [("module", JVal.obj [("factory", JVal.func 2)]),
        ("name", JVal.str "e")]).get "enabled") = false) :=
  ⟨c1_enabled_false_prunes.1 env0 "." _ .undefined rfl rfl,
   c1_enabled_false_prunes.2 env2 "."
     [("e", JVal.obj [("module", JVal.obj [("factory", JVal.func 2)])])]
     [(RTask.leaf (JVal.func 12),
       JVal.obj [("module", JVal.obj [("factory", JVal.func 2)]), ("name", JVal.str "e")])]
     rfl (RTask.leaf (JVal.func 12)) _ (List.mem_singleton.mpr rfl)⟩

/-- C3 (amended): the comparator substitutes `Number.MIN_VALUE` — the
smallest positive double, not the most negative number — for a missing or
non-numeric priority; hence a priority-less spec sorts at or before every
spec whose priority is at least `MIN_VALUE` (in particular every positive
priority) but strictly after any spec with a zero or negative priority;
and the fallback child sort and the top-level sibling sort use the same
`sortSpecs`/`compare` ordering. -/
theorem c3_missing_priority_min_value :
    (∀ (a b : JVal) (q : ℚ), numPriority a = none → numPriority b = some q →
      minValue ≤ q → compare a b ≤ 0) ∧
    (∀ (a b : JVal) (q : ℚ), numPriority a = none → numPriority b = some q →
      q < minValue → 0 < compare a b) ∧
    (∀ v, fallbackKids v =
      sortSpecs (((mapEntries v).map (fun kc => nameObject kc.2 kc.1)).filter jsIsObject)) ∧
    (∀ settings, toCreate settings =
      sortSpecs ((settings.map (fun kv => nameObject kv.2 kv.1)).filter jsIsObject)) := by
  refine ⟨?_, ?_, fun _ => rfl, fun _ => rfl⟩
  · intro a b q ha hb hq
    rw [compare, sub_nonpos, priorityQ, priorityQ, ha, hb]
    simpa using hq
  · intro a b q ha hb hq
    rw [compare, sub_pos, priorityQ, priorityQ, ha, hb]
    simpa using hq

/-- Counterexample to C3 as stated: a spec with no priority does not sort
at-or-before a spec with priority -1; `compare` is positive there because
`Number.MIN_VALUE` is positive. -/
theorem c3_counterexample :
    ¬(compare (JVal.obj []) (JVal.obj [("priority", JVal.num (-1))]) ≤ 0) := by
  simp only [compare, sub_nonpos]
  decide

/-- Witness for C3 at concrete inputs: missing priority sorts before
priority 5 and after priority -1. -/
theorem c3_witness :
    compare (JVal.obj []) (JVal.obj [("priority", JVal.num 5)]) ≤ 0 ∧
    0 < compare (JVal.obj []) (JVal.obj [("priority", JVal.num (-1))]) :=
  ⟨c3_missing_priority_min_value.1 _ _ 5 rfl rfl (by decide),
   c3_missing_priority_min_value.2.1 _ _ (-1) rfl rfl (by decide)⟩

/-- C5 (amended): the falsy non-string configs false, null, undefined
and 0 fail with the "No module section given" Configuration error; every
string config (the empty string included) behaves exactly as the object
config with that string as `name`; the empty string consequently fails
with the "Module name not defined" Configuration error instead. -/
theorem c5_falsy_config :
    (∀ (env : ModEnv) (root : String),
      resolveImpl env root .null
          = .error (.typeError "No module section given in middleware entry") ∧
      resolveImpl env root .undefined
          = .error (.typeError "No module section given in middleware entry") ∧
      resolveImpl env root (.bool false)
          = .error (.typeError "No module section given in middleware entry") ∧
      resolveImpl env root (.num 0)
          = .error (.typeError "No module section given in middleware entry")) ∧
    (∀ (env : ModEnv) (root : String) (s : String),
      resolveImpl env root (.str s) = resolveImpl env root (.obj [("name", .str s)])) ∧
    (∀ (env : ModEnv) (root : String),
      resolveImpl env root (.str "")
        = .error (.typeError
            "Module name not defined in middleware config: \x7b\"name\":\"\"\x7d")) :=
  ⟨fun _ _ => ⟨rfl, rfl, rfl, rfl⟩, fun _ _ _ => rfl, fun _ _ => rfl⟩

/-- Counterexample to C5 as stated: the empty string is falsy, yet it
does not produce the "No module section given" error (it takes the string
path first and fails on the missing module name instead). -/
theorem c5_counterexample :
    resolveImpl env0 "." (JVal.str "")
      ≠ .error (.typeError "No module section given in middleware entry") := by
  rw [show resolveImpl env0 "." (JVal.str "")
      = Except.error (JErr.typeError
          "Module name not defined in middleware config: \x7b\"name\":\"\"\x7d") from rfl]
  intro h
  have h1 := Except.error.inj h
  have h2 := JErr.typeError.inj h1
  exact absurd h2 (by decide)

/-- C6: the middleware-producing member is selected in the order (1)
named callable member when `method` is set, (2) the `default` object's
method member when `method` is set, (3) the callable module itself when
`method` is unset, (4) the callable `default` export when `method` is
unset; and when the selected candidate is not callable, `resolveImpl`
throws the Resolution error naming the configured module. -/
theorem c6_module_method_selection :
    (∀ (config module_ : JVal),
      jsTruthy (config.get "method") = true →
      isFunc (module_.get (jsToString (config.get "method"))) = true →
      findModuleMethod config module_ = module_.get (jsToString (config.get "method"))) ∧
    (∀ (config module_ : JVal),
      jsTruthy (config.get "method") = true →
      isFunc (module_.get (jsToString (config.get "method"))) = false →
      jsTruthy (module_.get "default") = true →
      jsIsObject (module_.get "default") = true →
      findModuleMethod config module_
        = (module_.get "default").get (jsToString (config.get "method"))) ∧
    (∀ (config module_ : JVal),
      jsTruthy (config.get "method") = false →
      isFunc module_ = true →
      findModuleMethod config module_ = module_) ∧
    (∀ (config module_ : JVal),
      jsTruthy (config.get "method") = false →
      isFunc module_ = false →
      isFunc (module_.get "default") = true →
      findModuleMethod config module_ = module_.get "default") ∧
    (∀ (env : ModEnv) (root : String) (fs : List (String × JVal)) (m : JVal),
      isFunc ((JVal.obj fs).get "factory") = false →
      findModule env root (JVal.obj fs) = .ok m →
      isFunc (findModuleMethod (JVal.obj fs) m) = false →
      resolveImpl env root (JVal.obj fs)
        = .error (.error ("Unable to locate middleware in "
            ++ jsToString ((JVal.obj fs).get "name")))) := by
  refine ⟨?_, ?_, ?_, ?_, ?_⟩
  · intro config module_ h1 h2
    simp [findModuleMethod, h1, h2, jsTruthy_of_isFunc h2]
  · intro config module_ h1 h2 h3 h4
    simp [findModuleMethod, h1, h2, h3, h4]
  · intro config module_ h1 h2
    simp [findModuleMethod, h1, h2]
  · intro config module_ h1 h2 h3
    simp [findModuleMethod, h1, h2, h3, jsTruthy_of_isFunc h3]
  · intro env root fs m h1 h2 h3
    rw [show resolveImpl env root (JVal.obj fs) = resolveImplObj env root (JVal.obj fs)
      from rfl]
    rw [resolveImplObj, if_neg (by rw [h1]; exact Bool.false_ne_true)]
    rw [h2]
    simp only [bind, Except.bind]
    rw [if_neg (by rw [h3]; exact Bool.false_ne_true)]

/-- Witness for C6 at concrete inputs, one per selection rule and one for
the Resolution error. -/
theorem c6_witness :
    findModuleMethod (JVal.obj [("method", JVal.str "m1")])
        (JVal.obj [("m1", JVal.func 5)]) = JVal.func 5 ∧
    findModuleMethod (JVal.obj [("method", JVal.str "m1")])
        (JVal.obj [("default", JVal.obj [("m1", JVal.func 6)])]) = JVal.func 6 ∧
    findModuleMethod (JVal.obj []) (JVal.func 4) = JVal.func 4 ∧
    findModuleMethod (JVal.obj []) (JVal.obj [("default", JVal.func 3)]) = JVal.func 3 ∧
    resolveImpl cenv "." (JVal.obj [("name", JVal.str "x"), ("method", JVal.str "nope")])
      = .error (.error "Unable to locate middleware in x") :=
  ⟨c6_module_method_selection.1 _ _ rfl rfl,
   c6_module_method_selection.2.1 _ _ rfl rfl rfl rfl,
   c6_module_method_selection.2.2.1 _ _ rfl rfl,
   c6_module_method_selection.2.2.2.1 _ _ rfl rfl rfl,
   c6_module_method_selection.2.2.2.2 cenv "." _ _ rfl rfl rfl⟩

/-- C7 (amended): the selected factory is invoked with `config.arguments`
as the argument list when it is an array and an empty argument list
otherwise, and with the loaded unit as the call context (not with no call
context as the claim stated); in particular a string module reference
whose unit has a callable default export produces the result of calling
that default with no arguments and the unit as `this`. -/
theorem c7_factory_call_context :
    (∀ (env : ModEnv) (root : String) (fs : List (String × JVal)) (m : JVal) (f : Nat),
      isFunc ((JVal.obj fs).get "factory") = false →
      findModule env root (JVal.obj fs) = .ok m →
      findModuleMethod (JVal.obj fs) m = .func f →
      resolveImpl env root (JVal.obj fs)
        = .ok (env.apply f (some m) (jsArgs ((JVal.obj fs).get "arguments")))) ∧
    (∀ (env : ModEnv) (root : String) (s : String) (m : JVal) (f : Nat),
      findModule env root (JVal.obj [("name", JVal.str s)]) = .ok m →
      isFunc m = false →
      m.get "default" = JVal.func f →
      resolveImpl env root (JVal.str s) = .ok (env.apply f (some m) [])) := by
  constructor
  · intro env root fs m f h1 h2 h3
    rw [show resolveImpl env root (JVal.obj fs) = resolveImplObj env root (JVal.obj fs)
      from rfl]
    rw [resolveImplObj, if_neg (by rw [h1]; exact Bool.false_ne_true)]
    rw [h2]
    simp only [bind, Except.bind]
    rw [h3]
    rfl
  · intro env root s m f h1 h2 h3
    have hmeth : findModuleMethod (JVal.obj [("name", JVal.str s)]) m = JVal.func f := by
      have hc : jsTruthy ((JVal.obj [("name", JVal.str s)]).get "method") = false := rfl
      rw [findModuleMethod, if_neg (by rw [hc]; exact Bool.false_ne_true),
        if_neg (by rw [h2]; exact Bool.false_ne_true), h3,
        if_pos (show (jsTruthy (JVal.func f) && isFunc (JVal.func f)) = true from rfl)]
    have hfac : isFunc ((JVal.obj [("name", JVal.str s)]).get "factory") = false := rfl
    rw [show resolveImpl env root (JVal.str s)
        = resolveImplObj env root (JVal.obj [("name", JVal.str s)]) from rfl]
    rw [resolveImplObj, if_neg (by rw [hfac]; exact Bool.false_ne_true)]
    rw [h1]
    simp only [bind, Except.bind]
    rw [hmeth]
    rfl

/-- Counterexample to C7 as stated: with a located unit whose default
factory inspects its call context, the produced task differs from the
factory called with no call context, because the source calls
`factory.apply(module, args)` with the loaded unit as `this`. -/
theorem c7_counterexample :
    cenv.load "x" = .ok (JVal.obj [("default", JVal.func 7)]) ∧
    cenv.apply 7 none [] = JVal.num 2 ∧
    resolveImpl cenv "." (JVal.str "x") ≠ .ok (cenv.apply 7 none []) := by
  refine ⟨rfl, rfl, ?_⟩
  rw [show resolveImpl cenv "." (JVal.str "x") = .ok (JVal.num 1) from rfl,
    show cenv.apply 7 none [] = JVal.num 2 from rfl]
  intro h
  have h1 := Except.ok.inj h
  have h2 := JVal.num.inj h1
  exact absurd h2 (by decide)

/-- Witness for C7 at concrete inputs: the string reference "x" resolves
to factory 7 applied with the loaded unit as context and no arguments. -/
theorem c7_witness :
    resolveImpl cenv "." (JVal.str "x")
      = .ok (cenv.apply 7 (some (JVal.obj [("default", JVal.func 7)])) []) :=
  c7_factory_call_context.2 cenv "." "x" (JVal.obj [("default", JVal.func 7)]) 7
    rfl rfl rfl

/-- C8: a string route is glued to the mount path with exactly one
separator between them — the separator is added when the mount path lacks
a trailing one and a duplicate leading separator is stripped from the
route; in particular the two examples of the spec. -/
theorem c8_normalize_string_routes :
    (normalize "/api" (.str "/users") = .str "/api/users") ∧
    (normalize "/api/" (.str "users") = .str "/api/users") ∧
    (∀ (mp r : String), normalize mp (.str r)
      = .str ((if lastCharIsSlash mp then mp else mp ++ "/")
          ++ (if firstCharIsSlash r then strDrop1 r else r))) ∧
    (∀ (mp r : String), lastCharIsSlash mp = false → firstCharIsSlash r = false →
      normalize mp (.str r) = .str (mp ++ "/" ++ r)) ∧
    (∀ (mp r : String), lastCharIsSlash mp = true → firstCharIsSlash r = true →
      normalize mp (.str r) = .str (mp ++ strDrop1 r)) := by
  refine ⟨rfl, rfl, fun mp r => rfl, ?_, ?_⟩
  · intro mp r h1 h2
    simp only [normalize, h1, h2, Bool.false_eq_true, if_false]
  · intro mp r h1 h2
    simp only [normalize, h1, h2, if_true]

/-- Witness for C8 at concrete inputs: one instance with the separator
added, one with the duplicate separator stripped. -/
theorem c8_witness :
    normalize "/a" (.str "b") = .str "/a/b" ∧
    normalize "/a/" (.str "/b") = .str "/a/b" :=
  ⟨by rw [c8_normalize_string_routes.2.2.2.1 "/a" "b" rfl rfl]; rfl,
   by rw [c8_normalize_string_routes.2.2.2.2 "/a/" "/b" rfl rfl]; rfl⟩

/-- C9 (amended): regexp and array route values pass through `normalize`
unchanged, but every other non-string route value (undefined, null,
numbers, objects, functions) is not passed through: `normalize` yields
the mount path string itself for them. -/
theorem c9_non_string_routes :
    (∀ (mp r : String), normalize mp (.regexp r) = .regexp r) ∧
    (∀ (mp : String) (elems : List JVal), normalize mp (.arr elems) = .arr elems) ∧
    (∀ (mp : String) (v : JVal),
      (∀ s, v ≠ .str s) → (∀ r, v ≠ .regexp r) → (∀ elems, v ≠ .arr elems) →
      normalize mp v = .str mp) := by
  refine ⟨fun _ _ => rfl, fun _ _ => rfl, ?_⟩
  intro mp v hs hr ha
  cases v with
  | str s => exact absurd rfl (hs s)
  | regexp r => exact absurd rfl (hr r)
  | arr elems => exact absurd rfl (ha elems)
  | undefined => rfl
  | null => rfl
  | bool b => rfl
  | num q => rfl
  | obj fields => rfl
  | func f => rfl

/-- Counterexample to C9 as stated: an absent (`undefined`) route is not
returned unchanged — `normalize` substitutes the mount path for it. -/
theorem c9_counterexample :
    normalize "/api" JVal.undefined = .str "/api" ∧ JVal.str "/api" ≠ JVal.undefined :=
  ⟨rfl, fun h => JVal.noConfusion h⟩

/-- Witness for C9 at a concrete input: a null route yields the mount
path. -/
theorem c9_witness : normalize "/mnt" JVal.null = .str "/mnt" :=
  c9_non_string_routes.2.2 "/mnt" JVal.null
    (fun _ h => JVal.noConfusion h)
    (fun _ h => JVal.noConfusion h)
    (fun _ h => JVal.noConfusion h)

theorem filterObjects_map_nameObject (settings : List (String × JVal)) :
    ((settings.map (fun kv => nameObject kv.2 kv.1)).filter jsIsObject)
      = (((settings.filter (fun kv => jsIsObject kv.2)).map
          (fun kv => nameObject kv.2 kv.1)).filter jsIsObject) := by
  induction settings with
  | nil => rfl
  | cons kv rest ih =>
    obtain ⟨k, v⟩ := kv
    by_cases h : jsIsObject v = true
    · simp only [List.map_cons, List.filter_cons, jsIsObject_nameObject, h, if_pos, ih]
    · simp only [List.map_cons, List.filter_cons, jsIsObject_nameObject, h,
        Bool.false_eq_true, if_false, ih]

/-- C10: top-level settings entries whose value is not an object are
silently discarded before resolution — the buffered registration result
(including any error behaviour) is exactly that of the same settings with
all non-object top-level values removed. -/
theorem c10_non_object_settings_discarded :
    ∀ (env : ModEnv) (root : String) (settings : List (String × JVal)),
    toRegister env root settings
      = toRegister env root (settings.filter (fun kv => jsIsObject kv.2)) := by
  intro env root settings
  rw [toRegister, toRegister, toCreate, toCreate, filterObjects_map_nameObject]

theorem resolveF_nonobject {env : ModEnv} {root : String} (n : Nat) (c nm : JVal)
    (h : jsIsObject c = false) : ∃ e, resolveF env root n c nm = .error e := by
  cases n with
  | zero => exact ⟨_, rfl⟩
  | succ n' =>
    cases c with
    | undefined => exact ⟨_, rfl⟩
    | null => exact ⟨_, rfl⟩
    | bool b => exact ⟨_, rfl⟩
    | num q => exact ⟨_, rfl⟩
    | str s => exact ⟨_, rfl⟩
    | func f => exact ⟨_, rfl⟩
    | obj fields => simp [jsIsObject] at h
    | arr elems => simp [jsIsObject] at h
    | regexp r => simp [jsIsObject] at h

theorem resolveKeyed_error {f : JVal → JVal → Except JErr RTask} :
    ∀ {l : List (String × JVal)} {k : String} {c : JVal},
    (k, c) ∈ l → (∃ e, f c (.str k) = .error e) →
    ∃ e, resolveKeyed f l = .error e := by
  intro l
  induction l with
  | nil =>
    intro k c hm _
    cases hm
  | cons kc rest ih =>
    intro k c hm hf
    obtain ⟨k1, c1⟩ := kc
    rcases List.mem_cons.mp hm with heq | hm2
    · injection heq with e1 e2
      subst e1
      subst e2
      obtain ⟨e, he⟩ := hf
      exact ⟨e, by simp only [resolveKeyed, he, bind, Except.bind]⟩
    · cases hc1 : f c1 (.str k1) with
      | error e => exact ⟨e, by simp only [resolveKeyed, hc1, bind, Except.bind]⟩
      | ok t =>
        obtain ⟨e, he⟩ := ih hm2 hf
        exact ⟨e, by simp only [resolveKeyed, hc1, he, bind, Except.bind]⟩

theorem depth_fallbackKid_lt {fs : List (String × JVal)} {key : String} {c : JVal}
    (hm : c ∈ fallbackKids ((JVal.obj fs).get key)) : depth c < depth (JVal.obj fs) := by
  simp only [fallbackKids, sortSpecs] at hm
  have hm2 := mem_stableSort.mp hm
  have hm3 := (List.mem_filter.mp hm2).1
  obtain ⟨kc, hkc, heq⟩ := List.mem_map.mp hm3
  have hd1 : depth c ≤ depth kc.2 := by
    rw [← heq]
    exact depth_nameObject
  have hkc2 : (kc.1, kc.2) ∈ mapEntries ((JVal.obj fs).get key) := by
    simpa using hkc
  have hd2 : depth kc.2 ≤ depth ((JVal.obj fs).get key) :=
    depth_mapEntries hkc2
  exact lt_of_le_of_lt (le_trans hd1 hd2) (depth_get_lt fs key)

/-- C4 (amended): only the fallback path discards non-object child
entries (silently, before child resolution) — for a parallel spec and for
a race spec a non-object child entry makes the whole resolution fail
instead; object children are annotated with their mapping key as `name`:
fallback children through `nameObject` before sorting, parallel/race
children through the name argument their resolution receives. -/
theorem c4_child_discard :
    (∀ (v c : JVal), c ∈ fallbackKids v → jsIsObject c = true) ∧
    (∀ (env : ModEnv) (root : String) (fs : List (String × JVal)) (nameArg : JVal)
       (k : String) (c : JVal),
      ((!(jsTruthy ((JVal.obj fs).get "enabled"))
          && hasField (JVal.obj fs) "enabled") = false) →
      jsTruthy ((setName (JVal.obj fs) nameArg).get "parallel") = true →
      (k, c) ∈ mapEntries ((setName (JVal.obj fs) nameArg).get "parallel") →
      jsIsObject c = false →
      ∃ e, resolve env root (JVal.obj fs) nameArg = .error e) ∧
    (∀ (env : ModEnv) (root : String) (fs : List (String × JVal)) (nameArg : JVal)
       (k : String) (c : JVal),
      ((!(jsTruthy ((JVal.obj fs).get "enabled"))
          && hasField (JVal.obj fs) "enabled") = false) →
      jsTruthy ((setName (JVal.obj fs) nameArg).get "parallel") = false →
      jsTruthy ((setName (JVal.obj fs) nameArg).get "race") = true →
      (k, c) ∈ mapEntries ((setName (JVal.obj fs) nameArg).get "race") →
      jsIsObject c = false →
      ∃ e, resolve env root (JVal.obj fs) nameArg = .error e) ∧
    (∀ (fs : List (String × JVal)) (k : String),
      jsTruthy ((JVal.obj fs).get "name") = false →
      (nameObject (JVal.obj fs) k).get "name" = .str k) ∧
    (∀ (fs : List (String × JVal)) (nameArg : JVal),
      jsTruthy ((JVal.obj fs).get "name") = false →
      (setName (JVal.obj fs) nameArg).get "name" = nameArg) := by
  refine ⟨?_, ?_, ?_, ?_, ?_⟩
  · intro v c hm
    simp only [fallbackKids, sortSpecs] at hm
    exact (List.mem_filter.mp (mem_stableSort.mp hm)).2
  · intro env root fs nameArg k c hdis hp hm hc
    rw [resolve_obj_unfold]
    simp only [resolveBody]
    rw [hdis]
    simp only [Bool.false_eq_true, if_false]
    rw [if_pos hp]
    obtain ⟨e, he⟩ := resolveKeyed_error hm
      (resolveF_nonobject (depth (JVal.obj fs)) c (.str k) hc)
    exact ⟨e, by rw [he]; rfl⟩
  · intro env root fs nameArg k c hdis hp hr hm hc
    rw [resolve_obj_unfold]
    simp only [resolveBody]
    rw [hdis]
    simp only [Bool.false_eq_true, if_false]
    rw [hp]
    simp only [Bool.false_eq_true, if_false]
    rw [if_pos hr]
    obtain ⟨e, he⟩ := resolveKeyed_error hm
      (resolveF_nonobject (depth (JVal.obj fs)) c (.str k) hc)
    exact ⟨e, by rw [he]; rfl⟩
  · intro fs k h
    rw [nameObject, if_pos (show jsIsObject (JVal.obj fs) = true from rfl),
      setName, if_neg (by rw [h]; exact Bool.false_ne_true)]
    exact get_setField_eq
  · intro fs nameArg h
    rw [setName, if_neg (by rw [h]; exact Bool.false_ne_true)]
    exact get_setField_eq

/-- Counterexample to C4 as stated: a parallel spec with a numeric
(non-object) child does not have that child discarded without error — its
resolution fails with a TypeError, while the same spec with the
non-object child removed resolves fine. -/
theorem c4_counterexample :
    resolve env0 "." c4spec .undefined
        = .error (.typeError "Cannot use in operator to search for enabled in a primitive") ∧
    resolve env0 "." c4specPruned .undefined
        = .ok (.comp .parallel [.leaf (.func 9)]) :=
  ⟨rfl, rfl⟩

/-- Witness for C4 at concrete inputs: fallback children are all objects;
a parallel spec and a race spec with a non-object child resolve to an
error; annotation fills the missing name from the key / name argument. -/
theorem c4_witness :
    jsIsObject (JVal.obj [("name", JVal.str "x")]) = true ∧
    (∃ e, resolve env0 "." c4spec .undefined = .error e) ∧
    (∃ e, resolve env0 "." (JVal.obj [("race", JVal.obj
      [("ok", JVal.obj [("module", JVal.obj [("factory", JVal.func 1)])]),
       ("bad", JVal.num 5)])]) .undefined = .error e) ∧
    (nameObject (JVal.obj [("priority", JVal.num 4)]) "kid").get "name" = .str "kid" ∧
    (setName (JVal.obj []) (JVal.str "given")).get "name" = .str "given" :=
  ⟨c4_child_discard.1 (JVal.obj [("x", JVal.obj [("name", JVal.str "x")])])
      (JVal.obj [("name", JVal.str "x")])
      (by rw [show fallbackKids (JVal.obj [("x", JVal.obj [("name", JVal.str "x")])])
            = [JVal.obj [("name", JVal.str "x")]] from rfl]
          exact List.mem_singleton.mpr rfl),
   c4_child_discard.2.1 env0 "." [("parallel", JVal.obj
      [("ok", JVal.obj [("module", JVal.obj [("factory", JVal.func 1)])]),
       ("bad", JVal.num 5)])] .undefined "bad" (JVal.num 5) rfl rfl
      (by rw [show mapEntries ((setName (JVal.obj [("parallel", JVal.obj
            [("ok", JVal.obj [("module", JVal.obj [("factory", JVal.func 1)])]),
             ("bad", JVal.num 5)])]) JVal.undefined).get "parallel")
            = [("ok", JVal.obj [("module", JVal.obj [("factory", JVal.func 1)])]),
               ("bad", JVal.num 5)] from rfl]
          exact List.mem_cons_of_mem _ (List.mem_singleton.mpr rfl))
      rfl,
   c4_child_discard.2.2.1 env0 "." [("race", JVal.obj
      [("ok", JVal.obj [("module", JVal.obj [("factory", JVal.func 1)])]),
       ("bad", JVal.num 5)])] .undefined "bad" (JVal.num 5) rfl rfl rfl
      (by rw [show mapEntries ((setName (JVal.obj [("race", JVal.obj
            [("ok", JVal.obj [("module", JVal.obj [("factory", JVal.func 1)])]),
             ("bad", JVal.num 5)])]) JVal.undefined).get "race")
            = [("ok", JVal.obj [("module", JVal.obj [("factory", JVal.func 1)])]),
               ("bad", JVal.num 5)] from rfl]
          exact List.mem_cons_of_mem _ (List.mem_singleton.mpr rfl))
      rfl,
   c4_child_discard.2.2.2.1 [("priority", JVal.num 4)] "kid" rfl,
   c4_child_discard.2.2.2.2 [] (JVal.str "given") rfl⟩

/-- C2: fallback children are stable-sorted ascending by priority (ties
keep mapping insertion order) before the composite is built; at request
time the composite tries the children in that order, stops at the first
child completing without error and never invokes the children after it;
in the concrete priority 2-fails / 1-succeeds / 3 scenario the priority-1
child is sorted (hence tried) before the priority-2 child, only the
priority-1 child is ever invoked, and the priority-3 child never runs. -/
theorem c2_fallback_order_and_stop :
    (∀ (env : ModEnv) (root : String) (fs : List (String × JVal)) (nameArg : JVal),
      ((!(jsTruthy ((JVal.obj fs).get "enabled"))
          && hasField (JVal.obj fs) "enabled") = false) →
      jsTruthy ((setName (JVal.obj fs) nameArg).get "parallel") = false →
      jsTruthy ((setName (JVal.obj fs) nameArg).get "race") = false →
      jsTruthy ((setName (JVal.obj fs) nameArg).get "fallback") = true →
      resolve env root (JVal.obj fs) nameArg
        = (resolveIndexed (resolve env root)
            (fallbackKids ((JVal.obj fs).get "fallback")) >>= fun fns =>
            pure (middleware .fallback fns))) ∧
    (∀ v, (fallbackKids v).Pairwise (fun a b => priorityQ a ≤ priorityQ b)) ∧
    (∀ (v : JVal) (q : ℚ), (fallbackKids v).filter (fun a => decide (priorityQ a = q))
      = (((mapEntries v).map (fun kc => nameObject kc.2 kc.1)).filter jsIsObject).filter
          (fun a => decide (priorityQ a = q))) ∧
    (∀ (beh : Beh) (pre : List RTask) (t : RTask) (post : List RTask),
      (∀ u ∈ pre, ∃ e, runRT beh u = some e) → runRT beh t = none →
      fallbackInvoked beh (pre ++ t :: post) = pre ++ [t] ∧
      runRT beh (.comp .fallback (pre ++ t :: post)) = none) ∧
    (resolve env2 "." c2spec .undefined
        = .ok (.comp .fallback [.leaf (.func 11), .leaf (.func 12), .leaf (.func 13)]) ∧
      fallbackKids (c2spec.get "fallback")
        = [JVal.obj [("priority", JVal.num 1),
             ("module", JVal.obj [("factory", JVal.func 1)]), ("name", JVal.str "b")],
           JVal.obj [("priority", JVal.num 2),
             ("module", JVal.obj [("factory", JVal.func 2)]), ("name", JVal.str "a")],
           JVal.obj [("priority", JVal.num 3),
             ("module", JVal.obj [("factory", JVal.func 3)]), ("name", JVal.str "c")]] ∧
      fallbackInvoked beh2 [.leaf (.func 11), .leaf (.func 12), .leaf (.func 13)]
        = [.leaf (.func 11)] ∧
      runRT beh2 (.comp .fallback
        [.leaf (.func 11), .leaf (.func 12), .leaf (.func 13)]) = none ∧
      RTask.leaf (JVal.func 12) ∉
        fallbackInvoked beh2 [.leaf (.func 11), .leaf (.func 12), .leaf (.func 13)] ∧
      RTask.leaf (JVal.func 13) ∉
        fallbackInvoked beh2 [.leaf (.func 11), .leaf (.func 12), .leaf (.func 13)]) := by
  refine ⟨?_, fun v => pairwise_sortSpecs _, fun v q => filter_sortSpecs _ _, ?_,
    rfl, rfl, rfl, rfl, ?_, ?_⟩
  · intro env root fs nameArg hdis hp hr hfb
    rw [resolve_obj_unfold]
    simp only [resolveBody]
    rw [hdis]
    simp only [Bool.false_eq_true, if_false]
    rw [hp]
    simp only [Bool.false_eq_true, if_false]
    rw [hr]
    simp only [Bool.false_eq_true, if_false]
    rw [if_pos hfb]
    rw [get_setName_ne (by decide)]
    have hcong : resolveIndexed (resolveF env root (depth (JVal.obj fs)))
        (fallbackKids ((JVal.obj fs).get "fallback"))
        = resolveIndexed (resolve env root)
            (fallbackKids ((JVal.obj fs).get "fallback")) :=
      resolveIndexedFrom_congr
        (fun c hm n =>
          resolveF_high_fuel env root (depth (JVal.obj fs)) c n (depth_fallbackKid_lt hm))
        0
    rw [show (resolveIndexed (resolveF env root (depth (JVal.obj fs)))
        (fallbackKids ((JVal.obj fs).get "fallback")))
        = resolveIndexed (resolve env root)
            (fallbackKids ((JVal.obj fs).get "fallback")) from hcong]
  · intro beh pre t post
    induction pre with
    | nil =>
      intro _ ht
      constructor
      · simp only [List.nil_append, fallbackInvoked, ht]
      · cases post with
        | nil => simp [runRT, runFb, ht]
        | cons p ps => simp [runRT, runFb, ht]
    | cons u pre' ih =>
      intro hpre ht
      obtain ⟨e, he⟩ := hpre u (List.mem_cons_self _ _)
      have hpre' : ∀ w ∈ pre', ∃ e, runRT beh w = some e :=
        fun w hw => hpre w (List.mem_cons_of_mem _ hw)
      obtain ⟨ih1, ih2⟩ := ih hpre' ht
      constructor
      · simp only [List.cons_append, fallbackInvoked, he]
        show u :: fallbackInvoked beh (pre' ++ t :: post) = u :: (pre' ++ [t])
        rw [ih1]
      · have ih2' : runFb beh (pre' ++ t :: post) = none := ih2
        cases hps : pre' ++ t :: post with
        | nil => exact absurd hps (by simp)
        | cons w ws =>
          rw [hps] at ih2'
          show runFb beh ((u :: pre') ++ t :: post) = none
          rw [List.cons_append, runFb, he, hps]
          exact ih2'
  · rw [show fallbackInvoked beh2 [.leaf (.func 11), .leaf (.func 12), .leaf (.func 13)]
      = [.leaf (.func 11)] from rfl]
    simp
  · rw [show fallbackInvoked beh2 [.leaf (.func 11), .leaf (.func 12), .leaf (.func 13)]
      = [.leaf (.func 11)] from rfl]
    simp

/-- Witness for C2 at concrete inputs: the pipeline equation at the
concrete fallback spec, and the stop-at-first-success execution with an
empty failing prefix. -/
theorem c2_witness :
    resolve env2 "." c2spec .undefined
      = (resolveIndexed (resolve env2 ".") (fallbackKids (c2spec.get "fallback"))
          >>= fun fns => pure (middleware .fallback fns)) ∧
    fallbackInvoked beh2
        ([] ++ RTask.leaf (JVal.func 11) :: [RTask.leaf (JVal.func 12),
          RTask.leaf (JVal.func 13)])
      = [] ++ [RTask.leaf (JVal.func 11)] ∧
    runRT beh2 (.comp .fallback
        ([] ++ RTask.leaf (JVal.func 11) :: [RTask.leaf (JVal.func 12),
          RTask.leaf (JVal.func 13)])) = none :=
  ⟨c2_fallback_order_and_stop.1 env2 "."
      [("fallback", JVal.obj
        [("a", JVal.obj [("priority", JVal.num 2),
            ("module", JVal.obj [("factory", JVal.func 2)])]),
         ("b", JVal.obj [("priority", JVal.num 1),
            ("module", JVal.obj [("factory", JVal.func 1)])]),
         ("c", JVal.obj [("priority", JVal.num 3),
            ("module", JVal.obj [("factory", JVal.func 3)])])])]
      .undefined rfl rfl rfl rfl,
   (c2_fallback_order_and_stop.2.2.2.1 beh2 []
      (RTask.leaf (JVal.func 11))
      [RTask.leaf (JVal.func 12), RTask.leaf (JVal.func 13)]
      (fun u hu => absurd hu (List.not_mem_nil u)) rfl).1,
   (c2_fallback_order_and_stop.2.2.2.1 beh2 []
      (RTask.leaf (JVal.func 11))
      [RTask.leaf (JVal.func 12), RTask.leaf (JVal.func 13)]
      (fun u hu => absurd hu (List.not_mem_nil u)) rfl).2⟩

end Meddleware
